import Mathlib

/- Shallow embedding, in exact real arithmetic, of the voice engine of the
shapes synthesizer: maths.rs, vec2.rs, util.rs (SampleTimer), synthesis.rs
(Envelope, phase, circle, polygon), opts.rs (parse_duration) and engine.rs
(the NoteOn/NoteOff handling inside do_audio).  f32 values are modelled as
real numbers; the places where IEEE-754 behaviour is essential (the
saturating `as u64` cast, a positive number divided by zero giving +inf)
are modelled explicitly and noted next to their definitions. -/

namespace maths

/-- Rust maths::lerp from maths.rs: `y0 * (1.0 - mu) + y1 * mu`. -/
def lerp (y0 y1 mu : ℝ) : ℝ := y0 * (1 - mu) + y1 * mu

end maths

/-- Rust type vec2::Vec2 = (f32, f32). -/
abbrev Vec2 := ℝ × ℝ

namespace vec2

/-- Rust vec2::scale: `(v.0 * s, v.1 * s)`. -/
def scale (v : Vec2) (s : ℝ) : Vec2 := (v.1 * s, v.2 * s)

/-- Rust vec2::add: `(a.0 + b.0, a.1 + b.1)`. -/
def add (a b : Vec2) : Vec2 := (a.1 + b.1, a.2 + b.2)

/-- Rust vec2::lerp: `add(scale(a, alpha), scale(b, 1.0 - alpha))`. -/
def lerp (a b : Vec2) (alpha : ℝ) : Vec2 := add (scale a alpha) (scale b (1 - alpha))

end vec2

/-- Largest u64 value; `u64::MAX` is the sentinel checked by SampleTimer::time_since. -/
def u64Max : ℕ := 2 ^ 64 - 1

/-- Exact value of f32::MAX. -/
noncomputable def f32Max : ℝ := (2 - 2 ^ (-23 : ℤ)) * 2 ^ 127

/-- Exact value of f32::EPSILON. -/
noncomputable def f32Eps : ℝ := 2 ^ (-23 : ℤ)

/-- Rust struct SampleTimer from util.rs. -/
structure SampleTimer where
  sample : ℕ
  samplerate : ℕ

namespace SampleTimer

/-- Rust SampleTimer::time_since: returns f32::MAX for the u64::MAX sentinel,
otherwise `(self.sample - sample_in_past) as f32 / self.samplerate as f32`.
The subtraction is on u64; all uses in the engine have sample ≥ sample_in_past,
matching truncated ℕ subtraction. -/
noncomputable def time_since (t : SampleTimer) (sample_in_past : ℕ) : ℝ :=
  if sample_in_past = u64Max then f32Max
  else ((t.sample - sample_in_past : ℕ) : ℝ) / (t.samplerate : ℝ)

/-- Rust SampleTimer::samplerate(), which returns the rate as f32. -/
def samplerateF (t : SampleTimer) : ℝ := (t.samplerate : ℝ)

end SampleTimer

/-- Rust enum EnvelopeState from synthesis.rs. -/
inductive EnvelopeState where
  | Held (level : ℝ) (start : ℕ)
  | Released (level : ℝ) (start : ℕ)
  | Bypass
  | Off

/-- Rust struct Envelope from synthesis.rs.  The duration fields hold the
value of `Duration::as_secs_f32()` used by Envelope::get. -/
structure Envelope where
  state : EnvelopeState
  attack : ℝ
  decay : ℝ
  sustain_level : ℝ
  release : ℝ

/-- Rust f32::clamp(x, lo, hi) for lo ≤ hi. -/
def rclamp (x lo hi : ℝ) : ℝ := min (max x lo) hi

namespace Envelope

/-- Rust Envelope::get from synthesis.rs, clause by clause. -/
noncomputable def get (e : Envelope) (timer : SampleTimer) : ℝ :=
  match e.state with
  | .Held level_at_hold start =>
    let elapsed := timer.time_since start
    let attack_completed := rclamp (elapsed / e.attack) 0 1
    let decay_completed := rclamp ((elapsed - e.attack) / e.decay) 0 1
    let attack_amount := maths.lerp level_at_hold 1 attack_completed
    let decay_amount := maths.lerp 0 (1 - e.sustain_level) decay_completed
    attack_amount - decay_amount
  | .Released level_at_release start =>
    let elapsed := timer.time_since start
    let completed := rclamp (elapsed / e.release) 0 1
    maths.lerp level_at_release 0 completed
  | .Bypass => 1
  | .Off => 0

/-- Rust Envelope::hold: snapshot the current level, then enter Held. -/
noncomputable def hold (e : Envelope) (timer : SampleTimer) : Envelope :=
  { e with state := .Held (e.get timer) timer.sample }

/-- Rust Envelope::release (named releaseAt here because `release` is
already the duration field): snapshot the current level, then enter Released. -/
noncomputable def releaseAt (e : Envelope) (timer : SampleTimer) : Envelope :=
  { e with state := .Released (e.get timer) timer.sample }

end Envelope

/-- Rust `as u64` cast from f32 for non-NaN values: truncates toward zero and
saturates, so negatives go to 0 (ℕ floor already does) and values above
u64::MAX go to u64::MAX. -/
noncomputable def castU64 (x : ℝ) : ℕ := min (Nat.floor x) u64Max

/-- The period-in-samples subexpression `(counter.samplerate() / freq) as u64`
of Rust `phase`.  In f32 a positive samplerate divided by freq = 0.0 is +inf,
which `as u64` saturates to u64::MAX; that IEEE case is modelled by the
explicit zero test (real-number division by zero would wrongly give 0). -/
noncomputable def periodSamples (samplerate freq : ℝ) : ℕ :=
  if freq = 0 then u64Max else castU64 (samplerate / freq)

/-- Rust `phase` from synthesis.rs:
`(counter.sample() % (counter.samplerate() / freq) as u64) as f32 * freq / counter.samplerate()`.
Returns none when the computed period is 0 samples, where the Rust integer
remainder `%` panics with a divide-by-zero. -/
noncomputable def phase (freq : ℝ) (counter : SampleTimer) : Option ℝ :=
  let period := periodSamples counter.samplerateF freq
  if period = 0 then none
  else some (((counter.sample % period : ℕ) : ℝ) * freq / counter.samplerateF)

namespace synthesis

/-- Rust `circle` from synthesis.rs: `(sin(2*PI*p), cos(2*PI*p))`.
Placed in the synthesis namespace because Mathlib already uses the bare name. -/
noncomputable def circle (p : ℝ) : Vec2 :=
  (Real.sin (2 * Real.pi * p), Real.cos (2 * Real.pi * p))

/-- Rust `polygon` from synthesis.rs, line by line. -/
noncomputable def polygon (n p : ℝ) : Vec2 :=
  let step := 1 / n
  let steps := p / step
  let current : ℝ := (⌊steps⌋ : ℝ)
  let current_p := step * current
  let progress := steps - current
  let next_p := current_p + step
  let c1 := circle current_p
  let c2 := circle next_p
  vec2.lerp c1 c2 progress

end synthesis

/-- Euclidean norm of a Vec2, used to state the unit-disc bound. -/
noncomputable def norm2 (v : Vec2) : ℝ := Real.sqrt (v.1 ^ 2 + v.2 ^ 2)

/-- Rust parse_duration from opts.rs:
`Duration::from_secs_f32(seconds.max(f32::EPSILON))`, measured back through
`as_secs_f32` as the engine uses it.  Duration stores whole nanoseconds and
from_secs_f32 rounds to the nearest nanosecond, so the resulting seconds
value is `round(max(seconds, EPSILON) * 1e9) / 1e9`. -/
noncomputable def parse_duration (seconds : ℝ) : ℝ :=
  ((round (max seconds f32Eps * 10 ^ 9) : ℤ) : ℝ) / 10 ^ 9

/-- wmidi Note::C0, the initial note field of every pooled voice in do_audio;
notes are modelled by their MIDI numbers. -/
def noteC0 : ℕ := 12

/-- Rust struct Voice from synthesis.rs together with the extra fields the
engine's voice records carry in engine.rs (level and a per-voice lfo_timer). -/
structure Voice where
  note : ℕ
  level : ℝ
  envelope : Envelope
  lfo_timer : SampleTimer

/-- The state threaded through the NoteOn/NoteOff message handling of
do_audio in engine.rs: the voice pool and the rotating next_voice_idx. -/
structure EngineState where
  voices : List Voice
  next_voice_idx : ℕ

/-- Replace the element at an index, the effect of `&mut voices[i]` writes. -/
def modifyIdx {α : Type} : List α → ℕ → (α → α) → List α
  | [], _, _ => []
  | x :: xs, 0, f => f x :: xs
  | x :: xs, n + 1, f => x :: modifyIdx xs n f

/-- The assignments shared by both NoteOn branches of do_audio: set note and
level, call envelope.hold(timer), reset the voice's lfo timer. -/
noncomputable def assignVoice (v : Voice) (note : ℕ) (level : ℝ)
    (timer : SampleTimer) : Voice :=
  { v with
    note := note
    level := level
    envelope := v.envelope.hold timer
    lfo_timer := { v.lfo_timer with sample := 0 } }

/-- The Message::NoteOn arm of do_audio in engine.rs: reuse the first voice
whose note field equals the incoming note; otherwise take the voice at
`next_voice_idx % num_voices` and do `next_voice_idx += 1` inside that branch.
Afterwards, in both branches, the shared tail performs the assignments and a
second unconditional `next_voice_idx += 1`. -/
noncomputable def noteOn (st : EngineState) (note : ℕ) (level : ℝ)
    (timer : SampleTimer) : EngineState :=
  match st.voices.findIdx? (fun v => v.note == note) with
  | some i =>
    { voices := modifyIdx st.voices i (fun v => assignVoice v note level timer)
      next_voice_idx := st.next_voice_idx + 1 }
  | none =>
    let i := st.next_voice_idx % st.voices.length
    { voices := modifyIdx st.voices i (fun v => assignVoice v note level timer)
      next_voice_idx := st.next_voice_idx + 1 + 1 }

/-- The Message::NoteOff arm of do_audio: release every voice holding the note. -/
noncomputable def noteOff (st : EngineState) (note : ℕ)
    (timer : SampleTimer) : EngineState :=
  { st with
    voices := st.voices.map (fun v =>
      if v.note = note then { v with envelope := v.envelope.releaseAt timer } else v) }

/-- An envelope built from the CLI default attack/decay/sustain/release. -/
noncomputable def demoEnvelope : Envelope := ⟨.Off, 0.05, 0.05, 0.9, 1⟩

/-- A freshly allocated voice as do_audio builds them: note C0, level 0. -/
noncomputable def demoVoice : Voice := ⟨noteC0, 0, demoEnvelope, ⟨0, 44100⟩⟩

/-- A timer at sample 0 with the default 44100 Hz rate. -/
def demoTimer : SampleTimer := ⟨0, 44100⟩

/-- A pool of two voices with the steal cursor at 0, as at engine start. -/
noncomputable def demoInit : EngineState := ⟨[demoVoice, demoVoice], 0⟩

/-- demoInit after NoteOn(60). -/
noncomputable def demoS1 : EngineState := noteOn demoInit 60 1 demoTimer

/-- demoS1 after NoteOn(61). -/
noncomputable def demoS2 : EngineState := noteOn demoS1 61 1 demoTimer

/-- demoS2 after NoteOn(62). -/
noncomputable def demoS3 : EngineState := noteOn demoS2 62 1 demoTimer

/-- Rust enum Message from engine.rs. -/
inductive Message where
  | NoteOn (note : ℕ) (level : ℝ)
  | NoteOff (note : ℕ)

/-- Modelled from the spec: the EventChannel (std::sync::mpsc in engine.rs is
an external collaborator; the spec defines it as a single-producer
single-consumer FIFO).  `sent` records every message the producer has pushed,
in order; `queue` is the channel content; `received` records what the
consumer's drain loop has taken, in order. -/
structure ChanState where
  sent : List Message
  queue : List Message
  received : List Message

/-- One atomic hand-off on the channel: either the producer sends a message
(handle_midi_input calling sender.send) or the consumer polls once
(one receiver.try_recv of do_audio's drain loop; empty polls do nothing). -/
inductive ChanOp where
  | send (m : Message)
  | recv

/-- Small-step semantics of the channel: an arbitrary list of ChanOps is an
arbitrary interleaving of producer sends and consumer polls. -/
def chanStep (s : ChanState) : ChanOp → ChanState
  | .send m => { s with sent := s.sent ++ [m], queue := s.queue ++ [m] }
  | .recv =>
    match s.queue with
    | [] => s
    | m :: rest => { s with queue := rest, received := s.received ++ [m] }

/-- The empty channel before any message flows. -/
def chanInit : ChanState := ⟨[], [], []⟩

/-- Run an interleaving from the empty channel. -/
def runChannel (ops : List ChanOp) : ChanState := ops.foldl chanStep chanInit

/- Theorems start here (claim order C10, C1 first; rest below). -/

/-- C10: vec2::lerp(a, b, alpha) equals alpha*a + (1-alpha)*b componentwise,
so vec2::lerp(a, b, 0) = b and vec2::lerp(a, b, 1) = a; this is the mirrored
convention of scalar maths::lerp, for which maths::lerp(y0, y1, 0) = y0 and
maths::lerp(y0, y1, 1) = y1. -/
theorem lerp_conventions (a b : Vec2) (alpha y0 y1 : ℝ) :
    vec2.lerp a b alpha =
      (alpha * a.1 + (1 - alpha) * b.1, alpha * a.2 + (1 - alpha) * b.2) ∧
    vec2.lerp a b 0 = b ∧
    vec2.lerp a b 1 = a ∧
    maths.lerp y0 y1 0 = y0 ∧
    maths.lerp y0 y1 1 = y1 := by
  refine ⟨?_, ?_, ?_, ?_, ?_⟩
  · simp only [vec2.lerp, vec2.add, vec2.scale, Prod.ext_iff]
    constructor <;> ring
  · simp [vec2.lerp, vec2.add, vec2.scale]
  · simp [vec2.lerp, vec2.add, vec2.scale]
  · simp [maths.lerp]
  · simp [maths.lerp]

/-- C1: the claim says polygon(n, 0) equals circle(0) and that polygon wraps
continuously at p = 1, with lerp interpolating from its first argument at
progress = 0.  The code's vec2::lerp returns its SECOND argument at
progress = 0 (arguments swapped relative to maths::lerp), so polygon(4, 0)
evaluates to circle(1/4) = (1, 0), not circle(0) = (0, 1): each lerp segment
is traversed backwards and polygon jumps at every vertex crossing. -/
theorem polygon_zero_ne_circle_zero :
    synthesis.polygon 4 0 = (1, 0) ∧
    synthesis.circle 0 = (0, 1) ∧
    synthesis.polygon 4 0 ≠ synthesis.circle 0 := by
  have hc : synthesis.circle 0 = (0, 1) := by
    simp [synthesis.circle]
  have hlz : ∀ x y : Vec2, vec2.lerp x y 0 = y := by
    intro x y
    simp [vec2.lerp, vec2.add, vec2.scale]
  have hp : synthesis.polygon 4 0 = (1, 0) := by
    have hsteps : (0 : ℝ) / (1 / 4) = 0 := by norm_num
    simp only [synthesis.polygon, hsteps, Int.floor_zero, Int.cast_zero, mul_zero,
      zero_add, sub_zero, hlz]
    have harg : 2 * Real.pi * (1 / 4 : ℝ) = Real.pi / 2 := by ring
    simp only [synthesis.circle, harg, Real.sin_pi_div_two, Real.cos_pi_div_two]
  refine ⟨hp, hc, ?_⟩
  rw [hp, hc]
  intro h
  have h1 := congrArg Prod.fst h
  norm_num at h1

/-- C2: the claim says a steal advances the cursor by exactly one and that
successive steals target successive pool indices, so N+1 distinct NoteOns
steal exactly one originally-allocated voice.  In the code the steal branch
increments next_voice_idx and the shared tail increments it again, so each
steal advances the cursor by two: with a pool of two voices, NoteOn(60),
NoteOn(61), NoteOn(62) all land on voice 0 (cursor 2, 4, 6), voice 1 keeps
its initial note C0 and is never assigned, and note 60 and then 61 are cut
off while a free voice sits idle. -/
theorem noteOn_double_advance :
    demoS1.next_voice_idx = 2 ∧
    demoS1.voices.map Voice.note = [60, noteC0] ∧
    demoS2.next_voice_idx = 4 ∧
    demoS2.voices.map Voice.note = [61, noteC0] ∧
    demoS3.next_voice_idx = 6 ∧
    demoS3.voices.map Voice.note = [62, noteC0] :=
  ⟨rfl, rfl, rfl, rfl, rfl, rfl⟩

/-- C3: the claim says phase never divides or takes a remainder by zero and
that the period `(samplerate / freq) as u64` is clamped to at least one
sample for every positive freq, including freq above the sample rate.  The
code has no clamp: at samplerate 44100 and freq 88200 the period truncates
to 0 and the integer remainder `sample % 0` panics (phase is none here). -/
theorem phase_mod_zero_above_samplerate :
    periodSamples (44100 : ℝ) 88200 = 0 ∧ phase 88200 demoTimer = none := by
  have hper : periodSamples (44100 : ℝ) 88200 = 0 := by
    have h1 : ((44100 : ℝ) / 88200) < 1 := by norm_num
    have h2 : Nat.floor ((44100 : ℝ) / 88200) = 0 := by
      rw [Nat.floor_eq_zero]
      exact h1
    simp [periodSamples, castU64, h2]
  refine ⟨hper, ?_⟩
  have hsr : demoTimer.samplerateF = (44100 : ℝ) := by
    simp [demoTimer, SampleTimer.samplerateF]
  simp [phase, hsr, hper]

/-- C9: any interleaving of producer sends and consumer polls keeps the
drained messages an exact in-order copy of the produced ones: at every point
received ++ queue = sent, so the consumer receives the messages in exactly
the produced order, none duplicated or reordered, and the ones not yet
received are exactly the channel content. -/
theorem channel_fifo_order (ops : List ChanOp) :
    (runChannel ops).received ++ (runChannel ops).queue = (runChannel ops).sent := by
  suffices h : ∀ (l : List ChanOp) (s : ChanState),
      s.received ++ s.queue = s.sent →
      (l.foldl chanStep s).received ++ (l.foldl chanStep s).queue =
        (l.foldl chanStep s).sent by
    exact h ops chanInit rfl
  intro l
  induction l with
  | nil => intro s hs; exact hs
  | cons op rest ih =>
    intro s hs
    refine ih (chanStep s op) ?_
    cases op with
    | send m =>
      simp only [chanStep, ← hs, List.append_assoc]
    | recv =>
      cases hq : s.queue with
      | nil => simpa [chanStep, hq] using hs
      | cons m tail =>
        simp only [chanStep, hq]
        rw [List.append_assoc]
        rw [hq] at hs
        simpa using hs

/-- C4: every attack/decay/release duration enters the engine through
parse_duration, which floors the requested seconds to f32::EPSILON before
building the Duration, so the resulting as_secs_f32 value is at least
119 nanoseconds and strictly positive; hence every divisor Envelope::get
uses (attack, decay, release) on an envelope built from parsed durations is
nonzero and no division by zero or NaN can arise from a requested 0. -/
theorem parsed_durations_positive (s sa sd sus sr : ℝ) (st : EnvelopeState) :
    (119 : ℝ) / 10 ^ 9 ≤ parse_duration s ∧
    0 < parse_duration s ∧
    0 < (Envelope.mk st (parse_duration sa) (parse_duration sd) sus
          (parse_duration sr)).attack ∧
    0 < (Envelope.mk st (parse_duration sa) (parse_duration sd) sus
          (parse_duration sr)).decay ∧
    0 < (Envelope.mk st (parse_duration sa) (parse_duration sd) sus
          (parse_duration sr)).release := by
  have key : ∀ x : ℝ, (119 : ℝ) / 10 ^ 9 ≤ parse_duration x := by
    intro x
    have hmax : f32Eps ≤ max x f32Eps := le_max_right x f32Eps
    have heps : f32Eps = 1 / 2 ^ 23 := by
      rw [f32Eps, zpow_neg]
      norm_num
    have hround : (119 : ℤ) ≤ round (max x f32Eps * 10 ^ 9) := by
      rw [round_eq, Int.le_floor]
      have hs9 : (119 : ℝ) ≤ f32Eps * 10 ^ 9 := by
        rw [heps]
        norm_num
      have hm9 : f32Eps * 10 ^ 9 ≤ max x f32Eps * 10 ^ 9 :=
        mul_le_mul_of_nonneg_right hmax (by norm_num)
      push_cast
      linarith
    have hcast : (119 : ℝ) ≤ ((round (max x f32Eps * 10 ^ 9) : ℤ) : ℝ) := by
      exact_mod_cast hround
    unfold parse_duration
    rw [div_le_div_iff (by norm_num) (by norm_num)]
    linarith
  have pos : ∀ x : ℝ, 0 < parse_duration x := by
    intro x
    have := key x
    have h0 : (0 : ℝ) < 119 / 10 ^ 9 := by norm_num
    linarith
  exact ⟨key s, pos s, pos sa, pos sd, pos sr⟩

/-- Helper: f32::EPSILON is positive. -/
theorem f32Eps_pos : 0 < f32Eps := by
  rw [f32Eps]
  positivity

/-- Helper: f32::EPSILON as a rational. -/
theorem f32Eps_eq : f32Eps = 1 / 2 ^ 23 := by
  rw [f32Eps, zpow_neg]
  norm_num

/-- Helper: f32::MAX as a rational. -/
theorem f32Max_eq : f32Max = (2 - 1 / 2 ^ 23) * 2 ^ 127 := by
  rw [f32Max, zpow_neg]
  norm_num

/-- Helper: clamp to [0,1] of a nonpositive value is 0. -/
theorem rclamp_of_nonpos {x : ℝ} (h : x ≤ 0) : rclamp x 0 1 = 0 := by
  rw [rclamp, max_eq_right h, min_eq_left zero_le_one]

/-- Helper: clamp to [0,1] of a value at least 1 is 1. -/
theorem rclamp_of_one_le {x : ℝ} (h : 1 ≤ x) : rclamp x 0 1 = 1 := by
  rw [rclamp, max_eq_left (le_trans zero_le_one h), min_eq_right h]

/-- Helper: clamp to [0,1] is the identity inside [0,1]. -/
theorem rclamp_of_mem {x : ℝ} (h0 : 0 ≤ x) (h1 : x ≤ 1) : rclamp x 0 1 = x := by
  rw [rclamp, max_eq_left h0, min_eq_left h1]

/-- Helper: clamp to [0,1] is monotone. -/
theorem rclamp_mono {x y : ℝ} (h : x ≤ y) : rclamp x 0 1 ≤ rclamp y 0 1 :=
  min_le_min (max_le_max h le_rfl) le_rfl

/-- Helper: Envelope::get unfolded on a Held state. -/
theorem get_held (l : ℝ) (s : ℕ) (a d su r : ℝ) (t : SampleTimer) :
    (Envelope.mk (.Held l s) a d su r).get t =
      maths.lerp l 1 (rclamp (t.time_since s / a) 0 1) -
        maths.lerp 0 (1 - su) (rclamp ((t.time_since s - a) / d) 0 1) := rfl

/-- Helper: Envelope::get unfolded on a Released state. -/
theorem get_released (l : ℝ) (s : ℕ) (a d su r : ℝ) (t : SampleTimer) :
    (Envelope.mk (.Released l s) a d su r).get t =
      maths.lerp l 0 (rclamp (t.time_since s / r) 0 1) := rfl

/-- Helper: Envelope::hold written as an explicit constructor. -/
theorem hold_eq (e : Envelope) (t : SampleTimer) :
    e.hold t = Envelope.mk (.Held (e.get t) t.sample)
      e.attack e.decay e.sustain_level e.release := rfl

/-- C5: for durations at least f32::EPSILON (and attack at most f32::MAX,
true of every as_secs_f32 of a Duration), calling hold(timer) twice at the
same sample count leaves the computed level unchanged relative to calling it
once, because each hold first snapshots the current get(timer) level. -/
theorem hold_twice_same_sample (e : Envelope) (t : SampleTimer)
    (haL : f32Eps ≤ e.attack) (haU : e.attack ≤ f32Max)
    (hdL : f32Eps ≤ e.decay) (hrL : f32Eps ≤ e.release) :
    ((e.hold t).hold t).get t = (e.hold t).get t := by
  have ha0 : 0 < e.attack := lt_of_lt_of_le f32Eps_pos haL
  have hd0 : 0 < e.decay := lt_of_lt_of_le f32Eps_pos hdL
  rw [hold_eq e t, hold_eq, get_held, get_held]
  by_cases hs : t.sample = u64Max
  · have hE : t.time_since t.sample = f32Max := by
      rw [SampleTimer.time_since, if_pos hs]
    have h1 : (1 : ℝ) ≤ f32Max / e.attack := (one_le_div ha0).2 haU
    rw [hE, rclamp_of_one_le h1]
    unfold maths.lerp
    ring
  · have hE : t.time_since t.sample = 0 := by
      rw [SampleTimer.time_since, if_neg hs, Nat.sub_self]
      simp
    have hneg : (0 - e.attack) / e.decay ≤ 0 := by
      rw [zero_sub, neg_div]
      have := div_nonneg ha0.le hd0.le
      linarith
    rw [hE, zero_div, rclamp_of_mem le_rfl zero_le_one, rclamp_of_nonpos hneg]
    unfold maths.lerp
    ring

/-- C5 witness: hold twice at sample 0 on the default envelope. -/
theorem hold_twice_same_sample_witness :
    ((demoEnvelope.hold demoTimer).hold demoTimer).get demoTimer =
      (demoEnvelope.hold demoTimer).get demoTimer :=
  hold_twice_same_sample demoEnvelope demoTimer
    (by rw [f32Eps_eq]; norm_num [demoEnvelope])
    (by rw [f32Max_eq]; norm_num [demoEnvelope])
    (by rw [f32Eps_eq]; norm_num [demoEnvelope])
    (by rw [f32Eps_eq]; norm_num [demoEnvelope])

/-- C6: in the Released state with release at least f32::EPSILON, get
returns exactly 0 when the elapsed time equals the release duration and is
never negative (indeed, again exactly 0) for larger elapsed times, because
the completed fraction clamps to 1. -/
theorem released_reaches_zero (l1 : ℝ) (s1 : ℕ) (a d su r : ℝ)
    (t : SampleTimer) (hrL : f32Eps ≤ r) :
    (t.time_since s1 = r →
      (Envelope.mk (.Released l1 s1) a d su r).get t = 0) ∧
    (r < t.time_since s1 →
      0 ≤ (Envelope.mk (.Released l1 s1) a d su r).get t) := by
  have hr0 : 0 < r := lt_of_lt_of_le f32Eps_pos hrL
  constructor
  · intro hE
    rw [get_released, hE, div_self (ne_of_gt hr0), rclamp_of_one_le le_rfl]
    simp [maths.lerp]
  · intro hE
    have h1 : 1 ≤ t.time_since s1 / r := by
      rw [le_div_iff hr0]
      linarith
    rw [get_released, rclamp_of_one_le h1]
    simp [maths.lerp]

/-- C6 witness: a released envelope evaluated exactly release seconds later. -/
theorem released_reaches_zero_witness :
    (Envelope.mk (.Released 0.5 0) 1 1 0.9 1).get ⟨44100, 44100⟩ = 0 :=
  (released_reaches_zero 0.5 0 1 1 0.9 1 ⟨44100, 44100⟩
      (by rw [f32Eps_eq]; norm_num)).1
    (by norm_num [SampleTimer.time_since, u64Max])

/-- C7: with attack/decay/release at least f32::EPSILON, sustain in [0,1]
and the snapshot levels in range, Envelope::get is monotonically
non-decreasing in elapsed time over the attack window, monotonically
non-increasing over the decay window, and monotonically non-increasing in
the Released state, where elapsed time is SampleTimer::time_since of the
state's start sample. -/
theorem envelope_monotone_phases
    (a d su r l0 l1 : ℝ) (s0 sr n1 n2 : ℕ)
    (haL : f32Eps ≤ a) (hdL : f32Eps ≤ d) (hrL : f32Eps ≤ r)
    (hsu0 : 0 ≤ su) (hsu1 : su ≤ 1)
    (hl00 : 0 ≤ l0) (hl01 : l0 ≤ 1) (hl1 : 0 ≤ l1)
    (hs0 : s0 ≠ u64Max) (hsr : 0 < sr) (hn : n1 ≤ n2) :
    ((SampleTimer.mk n2 sr).time_since s0 ≤ a →
      (Envelope.mk (.Held l0 s0) a d su r).get (SampleTimer.mk n1 sr) ≤
        (Envelope.mk (.Held l0 s0) a d su r).get (SampleTimer.mk n2 sr)) ∧
    (a ≤ (SampleTimer.mk n1 sr).time_since s0 ∧
        (SampleTimer.mk n2 sr).time_since s0 ≤ a + d →
      (Envelope.mk (.Held l0 s0) a d su r).get (SampleTimer.mk n2 sr) ≤
        (Envelope.mk (.Held l0 s0) a d su r).get (SampleTimer.mk n1 sr)) ∧
    ((Envelope.mk (.Released l1 s0) a d su r).get (SampleTimer.mk n2 sr) ≤
      (Envelope.mk (.Released l1 s0) a d su r).get (SampleTimer.mk n1 sr)) := by
  have ha0 : 0 < a := lt_of_lt_of_le f32Eps_pos haL
  have hd0 : 0 < d := lt_of_lt_of_le f32Eps_pos hdL
  have hr0 : 0 < r := lt_of_lt_of_le f32Eps_pos hrL
  have hsr' : (0 : ℝ) < (sr : ℝ) := by exact_mod_cast hsr
  have hE1 : (SampleTimer.mk n1 sr).time_since s0 = ((n1 - s0 : ℕ) : ℝ) / (sr : ℝ) := by
    rw [SampleTimer.time_since, if_neg hs0]
  have hE2 : (SampleTimer.mk n2 sr).time_since s0 = ((n2 - s0 : ℕ) : ℝ) / (sr : ℝ) := by
    rw [SampleTimer.time_since, if_neg hs0]
  have hE10 : 0 ≤ ((n1 - s0 : ℕ) : ℝ) / (sr : ℝ) :=
    div_nonneg (Nat.cast_nonneg _) (Nat.cast_nonneg _)
  have hE20 : 0 ≤ ((n2 - s0 : ℕ) : ℝ) / (sr : ℝ) :=
    div_nonneg (Nat.cast_nonneg _) (Nat.cast_nonneg _)
  have hE12 : ((n1 - s0 : ℕ) : ℝ) / (sr : ℝ) ≤ ((n2 - s0 : ℕ) : ℝ) / (sr : ℝ) := by
    apply (div_le_div_right hsr').mpr
    exact_mod_cast Nat.sub_le_sub_right hn s0
  refine ⟨?_, ?_, ?_⟩
  · intro hA2
    rw [hE2] at hA2
    rw [get_held, get_held, hE1, hE2]
    have hA1 : ((n1 - s0 : ℕ) : ℝ) / (sr : ℝ) ≤ a := le_trans hE12 hA2
    have hneg1 : (((n1 - s0 : ℕ) : ℝ) / (sr : ℝ) - a) / d ≤ 0 := by
      have h' : ((n1 - s0 : ℕ) : ℝ) / (sr : ℝ) - a ≤ 0 := by linarith
      exact div_nonpos_iff.mpr (Or.inr ⟨h', hd0.le⟩)
    have hneg2 : (((n2 - s0 : ℕ) : ℝ) / (sr : ℝ) - a) / d ≤ 0 := by
      have h' : ((n2 - s0 : ℕ) : ℝ) / (sr : ℝ) - a ≤ 0 := by linarith
      exact div_nonpos_iff.mpr (Or.inr ⟨h', hd0.le⟩)
    rw [rclamp_of_mem (div_nonneg hE10 ha0.le) ((div_le_one ha0).2 hA1),
      rclamp_of_mem (div_nonneg hE20 ha0.le) ((div_le_one ha0).2 hA2),
      rclamp_of_nonpos hneg1, rclamp_of_nonpos hneg2]
    have hq : ((n1 - s0 : ℕ) : ℝ) / (sr : ℝ) / a ≤ ((n2 - s0 : ℕ) : ℝ) / (sr : ℝ) / a :=
      (div_le_div_right ha0).mpr hE12
    unfold maths.lerp
    nlinarith [mul_nonneg (sub_nonneg.2 hq) (sub_nonneg.2 hl01)]
  · rintro ⟨hD1, hD2⟩
    rw [hE1] at hD1
    rw [hE2] at hD2
    rw [get_held, get_held, hE1, hE2]
    have hA2' : a ≤ ((n2 - s0 : ℕ) : ℝ) / (sr : ℝ) := le_trans hD1 hE12
    have hsub1 : ((n1 - s0 : ℕ) : ℝ) / (sr : ℝ) - a ≤ d := by linarith [hE12]
    have hsub2 : ((n2 - s0 : ℕ) : ℝ) / (sr : ℝ) - a ≤ d := by linarith
    rw [rclamp_of_one_le ((one_le_div ha0).2 hD1),
      rclamp_of_one_le ((one_le_div ha0).2 hA2'),
      rclamp_of_mem (div_nonneg (sub_nonneg.2 hD1) hd0.le) ((div_le_one hd0).2 hsub1),
      rclamp_of_mem (div_nonneg (sub_nonneg.2 hA2') hd0.le) ((div_le_one hd0).2 hsub2)]
    have hc : (((n1 - s0 : ℕ) : ℝ) / (sr : ℝ) - a) / d ≤
        (((n2 - s0 : ℕ) : ℝ) / (sr : ℝ) - a) / d :=
      (div_le_div_right hd0).mpr (by linarith)
    unfold maths.lerp
    nlinarith [mul_le_mul_of_nonneg_left hc (sub_nonneg.2 hsu1)]
  · rw [get_released, get_released, hE1, hE2]
    have hc : rclamp (((n1 - s0 : ℕ) : ℝ) / (sr : ℝ) / r) 0 1 ≤
        rclamp (((n2 - s0 : ℕ) : ℝ) / (sr : ℝ) / r) 0 1 :=
      rclamp_mono ((div_le_div_right hr0).mpr hE12)
    unfold maths.lerp
    nlinarith [mul_le_mul_of_nonneg_left hc hl1]

/-- C7 witness: the attack window at samples 0 and 22050 of a 1-second
attack at 44100 Hz. -/
theorem envelope_monotone_phases_witness :
    (Envelope.mk (.Held 0.5 0) 1 1 0.9 1).get (SampleTimer.mk 0 44100) ≤
      (Envelope.mk (.Held 0.5 0) 1 1 0.9 1).get (SampleTimer.mk 22050 44100) :=
  (envelope_monotone_phases 1 1 0.9 1 0.5 0.5 0 44100 0 22050
      (by rw [f32Eps_eq]; norm_num) (by rw [f32Eps_eq]; norm_num)
      (by rw [f32Eps_eq]; norm_num) (by norm_num) (by norm_num)
      (by norm_num) (by norm_num) (by norm_num)
      (by norm_num [u64Max]) (by norm_num) (by norm_num)).1
    (by norm_num [SampleTimer.time_since, u64Max])

/-- Helper: a point of Rust circle has unit square norm. -/
theorem circle_normSq (x : ℝ) :
    (synthesis.circle x).1 ^ 2 + (synthesis.circle x).2 ^ 2 = 1 := by
  simp only [synthesis.circle]
  exact Real.sin_sq_add_cos_sq _

/-- Helper: a convex combination of two circle points stays in the unit disc. -/
theorem lerp_circle_norm2_le_one (x y alpha : ℝ) (h0 : 0 ≤ alpha) (h1 : alpha ≤ 1) :
    norm2 (vec2.lerp (synthesis.circle x) (synthesis.circle y) alpha) ≤ 1 := by
  have hx := Real.sin_sq_add_cos_sq (2 * Real.pi * x)
  have hy := Real.sin_sq_add_cos_sq (2 * Real.pi * y)
  rw [norm2]
  have hsq : (vec2.lerp (synthesis.circle x) (synthesis.circle y) alpha).1 ^ 2 +
      (vec2.lerp (synthesis.circle x) (synthesis.circle y) alpha).2 ^ 2 ≤ 1 := by
    simp only [vec2.lerp, vec2.add, vec2.scale, synthesis.circle]
    nlinarith [sq_nonneg (Real.sin (2 * Real.pi * x) - Real.sin (2 * Real.pi * y)),
      sq_nonneg (Real.cos (2 * Real.pi * x) - Real.cos (2 * Real.pi * y)),
      mul_nonneg h0 (sub_nonneg.2 h1), hx, hy]
  calc Real.sqrt ((vec2.lerp (synthesis.circle x) (synthesis.circle y) alpha).1 ^ 2 +
        (vec2.lerp (synthesis.circle x) (synthesis.circle y) alpha).2 ^ 2)
      ≤ Real.sqrt 1 := Real.sqrt_le_sqrt hsq
    _ = 1 := Real.sqrt_one

/-- C8: for p in [0,1) and n at least 2, polygon(n, p) is a convex
combination of two unit-circle points, so its Euclidean norm is at most 1. -/
theorem polygon_in_unit_disc (n p : ℝ) (hn : 2 ≤ n) (hp0 : 0 ≤ p) (hp1 : p < 1) :
    (∃ v1 v2 alpha, 0 ≤ alpha ∧ alpha ≤ 1 ∧
      synthesis.polygon n p =
        vec2.lerp (synthesis.circle v1) (synthesis.circle v2) alpha) ∧
    norm2 (synthesis.polygon n p) ≤ 1 := by
  have hprog0 : 0 ≤ p / (1 / n) - ((⌊p / (1 / n)⌋ : ℤ) : ℝ) :=
    sub_nonneg.2 (Int.floor_le _)
  have hprog1 : p / (1 / n) - ((⌊p / (1 / n)⌋ : ℤ) : ℝ) ≤ 1 := by
    have := Int.lt_floor_add_one (p / (1 / n))
    linarith
  have hpoly : synthesis.polygon n p =
      vec2.lerp (synthesis.circle (1 / n * ((⌊p / (1 / n)⌋ : ℤ) : ℝ)))
        (synthesis.circle (1 / n * ((⌊p / (1 / n)⌋ : ℤ) : ℝ) + 1 / n))
        (p / (1 / n) - ((⌊p / (1 / n)⌋ : ℤ) : ℝ)) := rfl
  refine ⟨⟨_, _, _, hprog0, hprog1, hpoly⟩, ?_⟩
  rw [hpoly]
  exact lerp_circle_norm2_le_one _ _ _ hprog0 hprog1

/-- C8 witness: a square at phase 1/8. -/
theorem polygon_in_unit_disc_witness :
    norm2 (synthesis.polygon 4 (1 / 8)) ≤ 1 :=
  (polygon_in_unit_disc 4 (1 / 8) (by norm_num) (by norm_num) (by norm_num)).2
